import Mathlib

/-!
Shallow embedding of `src/models.py` (classes `Dog`, `Breed`, `DogHouse`).

The HTTP transport (`utils.get` / `utils.post`) is an external collaborator:
a GET response is a record with fields `count` (probe responses), `results`
and `next`.  A finite run of the transport is modelled by a `Chain`: the
sequence of responses linked by `next` pointers, ending at the response
whose `next` is null/absent.  Machine-level concerns do not arise: Python
integers are unbounded, so ids are `Int` and counts are `Nat`.
-/

namespace PyModels

/-- A dog record as consumed from the API: fields `id`, `name`, `breed`.
`breed` is read with `dog_data.get("breed")`, so it may be absent (`none`). -/
structure DogRecord where
  id : Int
  name : String
  breed : Option Int
deriving DecidableEq, Repr

/-- A breed record as consumed from the API: fields `id`, `name`. -/
structure BreedRecord where
  id : Int
  name : String
deriving DecidableEq, Repr

/-- `Dog` (models.py lines 12-27): id, name and breed id. -/
structure Dog where
  id : Int
  name : String
  breed : Int
deriving DecidableEq, Repr

/-- `Breed` (models.py lines 30-57): id, name, and its list of dogs,
mutated only by `add_dog` (append). -/
structure Breed where
  id : Int
  name : String
  dogs : List Dog
deriving DecidableEq, Repr

/-- `Breed.add_dog` (models.py line 53-54): append a dog to the breed's list. -/
def Breed.add_dog (b : Breed) (d : Dog) : Breed :=
  { b with dogs := b.dogs ++ [d] }

/-- `Breed.dogs_count` (models.py line 56-57). -/
def Breed.dogs_count (b : Breed) : Nat :=
  b.dogs.length

/-- `DogHouse` state (models.py lines 87-89): a list of breeds and a list of dogs. -/
structure DogHouse where
  breeds : List Breed
  dogs : List Dog
deriving DecidableEq, Repr

/-- `DogHouse.__init__` (models.py lines 87-89): both lists start empty. -/
def DogHouse.empty : DogHouse :=
  { breeds := [], dogs := [] }

/-- A finite chain of paginated responses: each node carries the `results`
list of one response; a `more` node also carries the `next` URL leading to
the following response, and a `last` node is the response whose `next` is
null/absent. -/
inductive Chain (R : Type) : Type where
  | last : List R → Chain R
  | more : List R → String → Chain R → Chain R
deriving DecidableEq

/-- The `results` lists of the chain's responses, in request order. -/
def Chain.pages {R : Type} : Chain R → List (List R)
  | .last rs => [rs]
  | .more rs _ c => rs :: c.pages

/-- All records of the chain, in fetch order. -/
def Chain.records {R : Type} (c : Chain R) : List R :=
  c.pages.flatten

/-- One run of the transport, as observed by `get_data`: the `count` field of
the breed probe response (absent field modelled as `none`, matching
`response.get('count', 0)`), the chain of breed pages, and the chain of dog
pages. -/
structure Transport where
  breedCount : Option Nat
  breedChain : Chain BreedRecord
  dogChain : Chain DogRecord

/-- Body of the breed page loop (models.py lines 106-108): each breed record
becomes a `Breed` with an empty dog list, appended to `self.breeds`. -/
def mkBreed (r : BreedRecord) : Breed :=
  { id := r.id, name := r.name, dogs := [] }

/-- Appending one fetched breed record to the house (models.py lines 107-108). -/
def addBreedRecord (h : DogHouse) (r : BreedRecord) : DogHouse :=
  { h with breeds := h.breeds ++ [mkBreed r] }

/-- The generator condition `b.id == breed_id` of models.py line 118, where
`breed_id = dog_data.get("breed")`. -/
def dogMatch (r : DogRecord) (b : Breed) : Bool :=
  r.breed == some b.id

/-- Effect of `breed.add_dog(dog)` (models.py line 122) on the breeds list:
in Python the found breed object is mutated in place, i.e. the first breed
whose id equals `bid` gains the dog. -/
def add_dog_to_breed : List Breed → Int → Dog → List Breed
  | [], _, _ => []
  | b :: bs, bid, d =>
    if b.id = bid then b.add_dog d :: bs
    else b :: add_dog_to_breed bs bid d

/-- Body of the dog page loop (models.py lines 116-122): resolve the record's
breed id against the already-loaded breeds with
`next((b for b in self.breeds if b.id == breed_id), None)`; on a match the
new `Dog` is appended to `self.dogs` and to the breed's own list, otherwise
the record is skipped. -/
def process_dog_record (h : DogHouse) (r : DogRecord) : DogHouse :=
  match h.breeds.find? (dogMatch r) with
  | none => h
  | some b =>
    let d : Dog := { id := r.id, name := r.name, breed := b.id }
    { breeds := add_dog_to_breed h.breeds b.id d, dogs := h.dogs ++ [d] }

/-- The `while url_breeds:` loop of `_get_breeds_data` (models.py lines
104-109), given the URL of its first request: returns the updated house and
the list of URLs requested (one GET per response; the loop stops exactly
when `next` is null). -/
def get_breeds_loop : DogHouse → String → Chain BreedRecord → DogHouse × List String
  | h, url, .last rs => (rs.foldl addBreedRecord h, [url])
  | h, url, .more rs nxt c =>
    let p := get_breeds_loop (rs.foldl addBreedRecord h) nxt c
    (p.1, url :: p.2)

/-- The `while url_dogs:` loop of `_get_dogs_data` (models.py lines 114-123),
given the URL of its first request: returns the updated house and the list
of URLs requested. -/
def get_dogs_loop : DogHouse → String → Chain DogRecord → DogHouse × List String
  | h, url, .last rs => (rs.foldl process_dog_record h, [url])
  | h, url, .more rs nxt c =>
    let p := get_dogs_loop (rs.foldl process_dog_record h) nxt c
    (p.1, url :: p.2)

/-- `DogHouse._get_breeds_data` (models.py lines 96-109): probe
`?limit=1` for the total count, request pages of size
`min(100, total_breeds)`, and follow `next` pointers.  Returns the updated
house and the full request trace (probe first). -/
def get_breeds_data (base : String) (h : DogHouse) (t : Transport) : DogHouse × List String :=
  let total := t.breedCount.getD 0
  let lim := min 100 total
  let url0 := base ++ "/api/v1/breeds/?limit=" ++ toString lim
  let p := get_breeds_loop h url0 t.breedChain
  (p.1, (base ++ "/api/v1/breeds/?limit=1") :: p.2)

/-- `DogHouse._get_dogs_data` (models.py lines 111-123): start from the fixed
URL `/api/v1/dogs/` and follow `next` pointers. -/
def get_dogs_data (base : String) (h : DogHouse) (t : Transport) : DogHouse × List String :=
  get_dogs_loop h (base ++ "/api/v1/dogs/") t.dogChain

/-- `DogHouse.get_data` (models.py lines 91-94): load breeds, then dogs. -/
def get_data (base : String) (t : Transport) : DogHouse :=
  (get_dogs_data base (get_breeds_data base DogHouse.empty t).1 t).1

/-- `DogHouse.get_total_breeds` (models.py lines 125-127). -/
def DogHouse.get_total_breeds (h : DogHouse) : Nat :=
  h.breeds.length

/-- `DogHouse.get_total_dogs` (models.py lines 129-131). -/
def DogHouse.get_total_dogs (h : DogHouse) : Nat :=
  h.dogs.length

/-- Python's `max(xs, key=f)` over `a :: l`: scan left to right, replacing
the current best only when the new key is strictly greater, so the first
element attaining the maximum wins. -/
def pickMax {α : Type} (f : α → Nat) : α → List α → α
  | a, [] => a
  | a, x :: l => pickMax f (if f a < f x then x else a) l

/-- `DogHouse.get_common_breed` (models.py lines 133-137): `None` when no
breeds, otherwise `max(self.breeds, key=lambda breed: breed.dogs_count())`. -/
def DogHouse.get_common_breed (h : DogHouse) : Option Breed :=
  match h.breeds with
  | [] => none
  | b :: bs => some (pickMax Breed.dogs_count b bs)

/-- Key order of a CPython `Counter` built from `names`: first-insertion
order, each distinct value once. -/
def counterInsert (ks : List String) (n : String) : List String :=
  if n ∈ ks then ks else ks ++ [n]

/-- The keys of `Counter(names)` in dict (first-insertion) order. -/
def counterKeys (names : List String) : List String :=
  names.foldl counterInsert []

/-- `Counter(names).most_common(1)[0][0]`: for `n = 1`, CPython's
`heapq.nlargest` reduces to built-in `max` over the counter's items in key
insertion order, so the first-inserted key attaining the maximal count wins.
(The `[]` branch is unreachable for the nonempty lists it is called on.) -/
def most_common1 (names : List String) : String :=
  match counterKeys names with
  | [] => ""
  | k :: ks => pickMax (fun n => names.count n) k ks

/-- `DogHouse.get_common_dog_name` (models.py lines 139-144): `""` when no
dogs, otherwise the most common name via `Counter`. -/
def DogHouse.get_common_dog_name (h : DogHouse) : String :=
  match h.dogs with
  | [] => ""
  | _ => most_common1 (h.dogs.map Dog.name)

/-- The `data` argument of `send_data`, a JSON-like dict (its content is
irrelevant: the method shadows it). -/
def ExtData : Type := List (String × String)

/-- The payload dict built by `send_data` (models.py lines 149-154). -/
structure Payload where
  totalBreeds : Nat
  totalDogs : Nat
  commonBreed : String
  commonDogName : String
deriving DecidableEq, Repr

/-- Outcome of `send_data`'s payload construction: either the payload that
gets POSTed, or the Python `AttributeError` raised by evaluating
`self.get_common_breed().name` when `get_common_breed()` returned `None`. -/
inductive SendOutcome : Type where
  | posted : Payload → SendOutcome
  | noneAttributeError : SendOutcome
deriving DecidableEq, Repr

/-- `DogHouse.send_data` (models.py lines 146-161): the `data` parameter is
immediately shadowed by a freshly computed dict; the `commonBreed` field
reads `.name` on the result of `get_common_breed()` with no `None` guard. -/
def DogHouse.send_data (h : DogHouse) (_data : ExtData) (_token : String) : SendOutcome :=
  match h.get_common_breed with
  | none => SendOutcome.noneAttributeError
  | some b =>
    SendOutcome.posted
      { totalBreeds := h.get_total_breeds
        totalDogs := h.get_total_dogs
        commonBreed := b.name
        commonDogName := h.get_common_dog_name }

/-- Spec-side notion: the maximal value of `f` over a list (`0` on `[]`). -/
def maxScore {α : Type} (f : α → Nat) : List α → Nat
  | [] => 0
  | x :: l => max (f x) (maxScore f l)

/-- Spec-side notion: how one dog record is resolved against a breeds list —
`none` when no breed id matches, otherwise the `Dog` built from the record
and the first matching breed's id. -/
def resolve (bs : List Breed) (r : DogRecord) : Option Dog :=
  (bs.find? (dogMatch r)).map (fun b => { id := r.id, name := r.name, breed := b.id })

/-- Spec-side notion: the dogs kept from a record list, in fetch order. -/
def matched_dogs (bs : List Breed) (rs : List DogRecord) : List Dog :=
  rs.filterMap (resolve bs)

/-- Fixture: breeds A (2 dogs), B (2 dogs), C (1 dog) loaded in order A,B,C. -/
def abcHouse : DogHouse :=
  { breeds :=
      [ { id := 1, name := "A", dogs := [⟨1, "x", 1⟩, ⟨2, "y", 1⟩] }
      , { id := 2, name := "B", dogs := [⟨3, "z", 2⟩, ⟨4, "w", 2⟩] }
      , { id := 3, name := "C", dogs := [⟨5, "v", 3⟩] } ]
  , dogs := [⟨1, "x", 1⟩, ⟨2, "y", 1⟩, ⟨3, "z", 2⟩, ⟨4, "w", 2⟩, ⟨5, "v", 3⟩] }

/-- Fixture: dogs named Rex, Fido, Rex, Fido loaded in that order. -/
def rexFidoHouse : DogHouse :=
  { breeds :=
      [ { id := 1, name := "K", dogs := [⟨1, "Rex", 1⟩, ⟨2, "Fido", 1⟩, ⟨3, "Rex", 1⟩, ⟨4, "Fido", 1⟩] } ]
  , dogs := [⟨1, "Rex", 1⟩, ⟨2, "Fido", 1⟩, ⟨3, "Rex", 1⟩, ⟨4, "Fido", 1⟩] }

/-- Fixture: a transport whose breed page repeats breed id 1. -/
def dupBreedTransport : Transport :=
  { breedCount := some 2
  , breedChain := Chain.last [⟨1, "A"⟩, ⟨1, "A"⟩]
  , dogChain := Chain.last [⟨7, "Rex", some 1⟩] }

/-- Fixture: a one-breed, one-dog transport with consistent ids. -/
def goodTransport : Transport :=
  { breedCount := some 1
  , breedChain := Chain.last [⟨1, "A"⟩]
  , dogChain := Chain.last [⟨7, "Rex", some 1⟩] }

/-- Fixture: 3 breed pages of 100, 100 and 37 records. -/
def chain237 : Chain BreedRecord :=
  Chain.more (List.replicate 100 ⟨0, "r"⟩) "p2"
    (Chain.more (List.replicate 100 ⟨0, "r"⟩) "p3"
      (Chain.last (List.replicate 37 ⟨0, "r"⟩)))

/-- Fixture: a single dog page holding one record whose breed id matches
nothing. -/
def orphanChain : Chain DogRecord := Chain.last [⟨7, "Rex", some 5⟩]

/-- Fixture: a transport whose breed probe reports count 0. -/
def probe0Transport : Transport :=
  { breedCount := some 0, breedChain := Chain.last [], dogChain := Chain.last [] }

/-! ### Helper lemmas: maxima and Python `max` -/

theorem le_maxScore {α : Type} (f : α → Nat) {x : α} :
    ∀ {l : List α}, x ∈ l → f x ≤ maxScore f l
  | y :: l, hx => by
    rcases List.mem_cons.mp hx with h | h
    · subst h; simp [maxScore]
    · have := le_maxScore f h
      simp only [maxScore]
      omega

theorem maxScore_le {α : Type} (f : α → Nat) {n : Nat} :
    ∀ {l : List α}, (∀ x ∈ l, f x ≤ n) → maxScore f l ≤ n
  | [], _ => Nat.zero_le n
  | y :: l, h => by
    have h1 := h y (List.mem_cons_self y l)
    have h2 := maxScore_le f (fun x hx => h x (List.mem_cons_of_mem y hx))
    simp only [maxScore]
    omega

theorem maxScore_congr {α : Type} (f : α → Nat) {l l' : List α}
    (h : ∀ x, x ∈ l ↔ x ∈ l') : maxScore f l = maxScore f l' := by
  apply Nat.le_antisymm
  · exact maxScore_le f (fun x hx => le_maxScore f ((h x).mp hx))
  · exact maxScore_le f (fun x hx => le_maxScore f ((h x).mpr hx))

theorem find?_pickMax {α : Type} (f : α → Nat) :
    ∀ (l : List α) (a : α),
      (a :: l).find? (fun x => f x == maxScore f (a :: l)) = some (pickMax f a l)
  | [], a => by simp [List.find?, pickMax, maxScore]
  | b :: t, a => by
    by_cases hab : f a < f b
    · have hM : maxScore f (a :: b :: t) = maxScore f (b :: t) := by
        simp only [maxScore]; omega
      have hfb : f b ≤ maxScore f (b :: t) := by simp only [maxScore]; omega
      have hfa : (f a == maxScore f (a :: b :: t)) = false := by
        rw [hM]; simp only [beq_eq_false_iff_ne, ne_eq]; omega
      have hpick : pickMax f a (b :: t) = pickMax f b t := by
        simp [pickMax, hab]
      rw [hpick, List.find?_cons, hfa, hM]
      exact find?_pickMax f t b
    · have hM : maxScore f (a :: b :: t) = maxScore f (a :: t) := by
        simp only [maxScore]; omega
      have hpick : pickMax f a (b :: t) = pickMax f a t := by
        simp [pickMax, hab]
      have IH := find?_pickMax f t a
      rw [hpick]
      by_cases hfa : f a = maxScore f (a :: b :: t)
      · have hhead : (f a == maxScore f (a :: b :: t)) = true := by
          simp [hfa]
        have hhead' : (f a == maxScore f (a :: t)) = true := by
          rw [← hM]; exact hhead
        rw [List.find?_cons, hhead]
        rw [List.find?_cons, hhead'] at IH
        exact IH
      · have hfa' : (f a == maxScore f (a :: b :: t)) = false := by
          simp only [beq_eq_false_iff_ne, ne_eq]; exact hfa
        have hfale : f a ≤ maxScore f (a :: b :: t) := by
          simp only [maxScore]; omega
        have hfb : (f b == maxScore f (a :: b :: t)) = false := by
          simp only [beq_eq_false_iff_ne, ne_eq]; omega
        have hfa'' : (f a == maxScore f (a :: t)) = false := by
          rw [← hM]; exact hfa'
        rw [List.find?_cons, hfa', List.find?_cons, hfb, hM]
        rw [List.find?_cons, hfa''] at IH
        exact IH

/-! ### Helper lemmas: `Counter` key order vs first occurrences -/

theorem mem_foldl_counterInsert :
    ∀ (names acc : List String) (x : String),
      x ∈ names.foldl counterInsert acc ↔ x ∈ acc ∨ x ∈ names
  | [], acc, x => by simp
  | n :: rest, acc, x => by
    have IH := mem_foldl_counterInsert rest (counterInsert acc n) x
    have hins : x ∈ counterInsert acc n ↔ x ∈ acc ∨ x = n := by
      by_cases hn : n ∈ acc
      · simp only [counterInsert, if_pos hn]
        exact ⟨Or.inl, fun h => h.elim id (fun he => he ▸ hn)⟩
      · simp [counterInsert, hn, List.mem_append]
    simp only [List.foldl_cons]
    rw [IH, hins]
    simp only [List.mem_cons]
    tauto

theorem find?_concat (p : String → Bool) (n : String) :
    ∀ l : List String,
      (l ++ [n]).find? p = (l.find? p).or (if p n then some n else none)
  | [] => by cases hpn : p n <;> simp [List.find?, hpn, Option.or]
  | a :: l => by
    cases hpa : p a <;>
      simp [List.find?, hpa, find?_concat p n l, Option.or]

theorem find?_filter_ne (p q : String → Bool) (n : String) (hpn : p n = false) :
    ∀ l : List String,
      (l.filter (fun m => q m && !decide (m = n))).find? p = (l.filter q).find? p
  | [] => rfl
  | m :: rest => by
    by_cases hmn : m = n
    · subst hmn
      cases hq : q m <;>
        simp [List.filter, hq, List.find?, hpn, find?_filter_ne p q m hpn rest]
    · cases hq : q m
      · simp [List.filter, hq, hmn, find?_filter_ne p q n hpn rest]
      · cases hpm : p m <;>
          simp [List.filter, hq, hmn, List.find?, hpm, find?_filter_ne p q n hpn rest]

theorem find?_foldl_counterInsert (p : String → Bool) :
    ∀ (names acc : List String),
      (names.foldl counterInsert acc).find? p
        = (acc.find? p).or ((names.filter (fun m => !decide (m ∈ acc))).find? p)
  | [], acc => by cases h : acc.find? p <;> simp [List.find?, h, Option.or]
  | n :: rest, acc => by
    by_cases hn : n ∈ acc
    · have hstep : counterInsert acc n = acc := by simp [counterInsert, hn]
      simp only [List.foldl_cons, hstep, List.filter_cons]
      rw [find?_foldl_counterInsert p rest acc]
      simp [hn]
    · have hstep : counterInsert acc n = acc ++ [n] := by simp [counterInsert, hn]
      simp only [List.foldl_cons, hstep]
      rw [find?_foldl_counterInsert p rest (acc ++ [n])]
      rw [find?_concat p n acc]
      have hpt : (fun m => !decide (m ∈ acc ++ [n]))
          = (fun m => (!decide (m ∈ acc)) && !decide (m = n)) := by
        funext m
        by_cases h1 : m ∈ acc <;> by_cases h2 : m = n <;>
          simp [List.mem_append, h1, h2]
      rw [hpt]
      have hfilter : (n :: rest).filter (fun m => !decide (m ∈ acc))
          = n :: rest.filter (fun m => !decide (m ∈ acc)) := by
        simp [hn]
      rw [hfilter]
      cases hpn : p n
      · rw [find?_filter_ne p (fun m => !decide (m ∈ acc)) n hpn rest]
        simp only [List.find?_cons, hpn]
        cases hacc : acc.find? p <;> simp [Option.or]
      · simp only [List.find?_cons, hpn]
        cases hacc : acc.find? p <;> simp [Option.or]

theorem find?_counterKeys (p : String → Bool) (names : List String) :
    (counterKeys names).find? p = names.find? p := by
  rw [counterKeys, find?_foldl_counterInsert p names []]
  have : (fun m => !decide (m ∈ ([] : List String))) = (fun _ : String => true) := by
    funext m; simp
  rw [this, List.filter_true]
  simp [List.find?, Option.or]

/-! ### Helper lemmas: the two pagination loops -/

theorem foldl_addBreedRecord :
    ∀ (rs : List BreedRecord) (h : DogHouse),
      rs.foldl addBreedRecord h = ⟨h.breeds ++ rs.map mkBreed, h.dogs⟩
  | [], h => by simp
  | r :: rs, h => by
    simp only [List.foldl_cons, List.map_cons]
    rw [foldl_addBreedRecord rs]
    simp [addBreedRecord]

theorem get_breeds_loop_house :
    ∀ (c : Chain BreedRecord) (h : DogHouse) (url : String),
      (get_breeds_loop h url c).1 = ⟨h.breeds ++ c.records.map mkBreed, h.dogs⟩
  | .last rs, h, url => by
    simp [get_breeds_loop, foldl_addBreedRecord, Chain.records, Chain.pages]
  | .more rs nxt c, h, url => by
    simp only [get_breeds_loop]
    rw [get_breeds_loop_house c, foldl_addBreedRecord rs h]
    simp [Chain.records, Chain.pages]

theorem get_breeds_loop_trace :
    ∀ (c : Chain BreedRecord) (h : DogHouse) (url : String),
      (get_breeds_loop h url c).2.length = c.pages.length
  | .last rs, h, url => by simp [get_breeds_loop, Chain.pages]
  | .more rs nxt c, h, url => by
    simp only [get_breeds_loop, List.length_cons, Chain.pages]
    rw [get_breeds_loop_trace c]

theorem get_dogs_loop_house :
    ∀ (c : Chain DogRecord) (h : DogHouse) (url : String),
      (get_dogs_loop h url c).1 = c.records.foldl process_dog_record h
  | .last rs, h, url => by
    simp [get_dogs_loop, Chain.records, Chain.pages]
  | .more rs nxt c, h, url => by
    simp only [get_dogs_loop]
    rw [get_dogs_loop_house c]
    simp [Chain.records, Chain.pages, List.foldl_append]

theorem get_dogs_loop_trace :
    ∀ (c : Chain DogRecord) (h : DogHouse) (url : String),
      (get_dogs_loop h url c).2.length = c.pages.length
  | .last rs, h, url => by simp [get_dogs_loop, Chain.pages]
  | .more rs nxt c, h, url => by
    simp only [get_dogs_loop, List.length_cons, Chain.pages]
    rw [get_dogs_loop_trace c]

/-! ### Helper lemmas: resolving one dog record -/

theorem find?_some_split {α : Type} (p : α → Bool) :
    ∀ (l : List α) (b : α), l.find? p = some b →
      ∃ l1 l2, l = l1 ++ b :: l2 ∧ (∀ x ∈ l1, p x = false) ∧ p b = true
  | [], b, h => by simp [List.find?] at h
  | a :: l, b, h => by
    cases hpa : p a
    · rw [List.find?_cons, hpa] at h
      obtain ⟨l1, l2, he, hall, hpb⟩ := find?_some_split p l b h
      refine ⟨a :: l1, l2, by rw [he, List.cons_append], ?_, hpb⟩
      intro x hx
      rcases List.mem_cons.mp hx with rfl | hx
      · exact hpa
      · exact hall x hx
    · rw [List.find?_cons, hpa] at h
      cases h
      exact ⟨[], l, rfl, by simp, hpa⟩

theorem add_dog_to_breed_append (bid : Int) (d : Dog) :
    ∀ (bs1 : List Breed) (b0 : Breed) (bs2 : List Breed),
      (∀ x ∈ bs1, x.id ≠ bid) → b0.id = bid →
      add_dog_to_breed (bs1 ++ b0 :: bs2) bid d = bs1 ++ (b0.add_dog d) :: bs2
  | [], b0, bs2, _, hb0 => by simp [add_dog_to_breed, hb0]
  | b :: bs1, b0, bs2, hne, hb0 => by
    have hb : b.id ≠ bid := hne b (List.mem_cons_self b bs1)
    simp only [List.cons_append, add_dog_to_breed, if_neg hb, List.append_eq,
      add_dog_to_breed_append bid d bs1 b0 bs2
        (fun x hx => hne x (List.mem_cons_of_mem b hx)) hb0]

theorem process_dog_record_none {h : DogHouse} {r : DogRecord}
    (hf : h.breeds.find? (dogMatch r) = none) : process_dog_record h r = h := by
  simp [process_dog_record, hf]

theorem process_dog_record_some {h : DogHouse} {r : DogRecord} {b0 : Breed}
    (hf : h.breeds.find? (dogMatch r) = some b0) :
    ∃ bs1 bs2, h.breeds = bs1 ++ b0 :: bs2
      ∧ (∀ x ∈ bs1, dogMatch r x = false)
      ∧ r.breed = some b0.id
      ∧ process_dog_record h r
          = ⟨bs1 ++ (b0.add_dog ⟨r.id, r.name, b0.id⟩) :: bs2,
             h.dogs ++ [⟨r.id, r.name, b0.id⟩]⟩ := by
  obtain ⟨bs1, bs2, he, hall, hpb⟩ := find?_some_split (dogMatch r) h.breeds b0 hf
  have hrb : r.breed = some b0.id := by
    have := hpb
    simp only [dogMatch, beq_iff_eq] at this
    exact this
  refine ⟨bs1, bs2, he, hall, hrb, ?_⟩
  have hne : ∀ x ∈ bs1, x.id ≠ b0.id := by
    intro x hx heq
    have hx' := hall x hx
    rw [dogMatch, hrb, heq] at hx'
    simp at hx'
  simp only [process_dog_record, hf]
  rw [he, add_dog_to_breed_append b0.id _ bs1 b0 bs2 hne rfl]

theorem add_dog_map_id (bid : Int) (d : Dog) :
    ∀ bs : List Breed, (add_dog_to_breed bs bid d).map Breed.id = bs.map Breed.id
  | [] => rfl
  | b :: bs => by
    by_cases hb : b.id = bid <;>
      simp [add_dog_to_breed, hb, Breed.add_dog, add_dog_map_id bid d bs]

theorem process_map_id (h : DogHouse) (r : DogRecord) :
    (process_dog_record h r).breeds.map Breed.id = h.breeds.map Breed.id := by
  cases hf : h.breeds.find? (dogMatch r)
  · rw [process_dog_record_none hf]
  · simp [process_dog_record, hf, add_dog_map_id]

theorem resolve_congr_id :
    ∀ (bs bs' : List Breed), bs.map Breed.id = bs'.map Breed.id →
      ∀ r, resolve bs r = resolve bs' r
  | [], [], _, r => rfl
  | [], _ :: _, h, r => by simp at h
  | _ :: _, [], h, r => by simp at h
  | b :: bs, b' :: bs', h, r => by
    simp only [List.map_cons, List.cons.injEq] at h
    obtain ⟨hid, htail⟩ := h
    have hm : dogMatch r b = dogMatch r b' := by rw [dogMatch, dogMatch, hid]
    cases hdm : dogMatch r b'
    · have := resolve_congr_id bs bs' htail r
      simp only [resolve, List.find?_cons, hm, hdm] at this ⊢
      exact this
    · simp [resolve, List.find?_cons, hm, hdm, hid]

theorem matched_dogs_congr (bs bs' : List Breed)
    (h : bs.map Breed.id = bs'.map Breed.id) (rs : List DogRecord) :
    matched_dogs bs rs = matched_dogs bs' rs := by
  have hres : resolve bs = resolve bs' := funext (resolve_congr_id bs bs' h)
  rw [matched_dogs, matched_dogs, hres]

theorem matched_dogs_cons_none {bs : List Breed} {r : DogRecord}
    (rs : List DogRecord) (hres : resolve bs r = none) :
    matched_dogs bs (r :: rs) = matched_dogs bs rs := by
  simp [matched_dogs, List.filterMap_cons, hres]

theorem matched_dogs_cons_some {bs : List Breed} {r : DogRecord} {d : Dog}
    (rs : List DogRecord) (hres : resolve bs r = some d) :
    matched_dogs bs (r :: rs) = d :: matched_dogs bs rs := by
  simp [matched_dogs, List.filterMap_cons, hres]

theorem foldl_process_dogs :
    ∀ (rs : List DogRecord) (h : DogHouse),
      (rs.foldl process_dog_record h).dogs = h.dogs ++ matched_dogs h.breeds rs
      ∧ (rs.foldl process_dog_record h).breeds.map Breed.id = h.breeds.map Breed.id
  | [], h => by simp [matched_dogs]
  | r :: rs, h => by
    have hid := process_map_id h r
    have hmatch := matched_dogs_congr _ _ hid rs
    cases hf : h.breeds.find? (dogMatch r)
    · have heq := process_dog_record_none hf
      have hres : resolve h.breeds r = none := by simp [resolve, hf]
      obtain ⟨J1, J2⟩ := foldl_process_dogs rs h
      refine ⟨?_, ?_⟩
      · rw [List.foldl_cons, heq, J1, matched_dogs_cons_none rs hres]
      · rw [List.foldl_cons, heq, J2]
    · rename_i b0
      have hres : resolve h.breeds r = some ⟨r.id, r.name, b0.id⟩ := by
        simp [resolve, hf]
      obtain ⟨bs1, bs2, he, hall, hrb, heq⟩ := process_dog_record_some hf
      obtain ⟨IH1, IH2⟩ := foldl_process_dogs rs (process_dog_record h r)
      refine ⟨?_, ?_⟩
      · rw [List.foldl_cons, IH1, hmatch, matched_dogs_cons_some rs hres, heq]
        simp
      · rw [List.foldl_cons, IH2, hid]

/-! ### Helper lemmas: data-model invariants through the dog loader -/

theorem process_sum (h : DogHouse) (r : DogRecord)
    (hT : h.dogs.length = (h.breeds.map Breed.dogs_count).sum) :
    (process_dog_record h r).dogs.length
      = ((process_dog_record h r).breeds.map Breed.dogs_count).sum := by
  cases hf : h.breeds.find? (dogMatch r)
  · rw [process_dog_record_none hf]; exact hT
  · rename_i b0
    obtain ⟨bs1, bs2, he, hall, hrb, heq⟩ := process_dog_record_some hf
    rw [heq]
    have hT' := hT
    rw [he] at hT'
    simp only [List.map_append, List.map_cons, List.sum_append, List.sum_cons,
      List.length_append, List.length_cons, List.length_nil,
      Breed.add_dog, Breed.dogs_count] at hT' ⊢
    omega

theorem foldl_process_sum :
    ∀ (rs : List DogRecord) (h : DogHouse),
      h.dogs.length = (h.breeds.map Breed.dogs_count).sum →
      (rs.foldl process_dog_record h).dogs.length
        = ((rs.foldl process_dog_record h).breeds.map Breed.dogs_count).sum
  | [], _, hT => hT
  | r :: rs, h, hT => by
    rw [List.foldl_cons]
    exact foldl_process_sum rs (process_dog_record h r) (process_sum h r hT)

theorem process_invariants (h : DogHouse) (r : DogRecord)
    (hnd : (h.breeds.map Breed.id).Nodup)
    (href : ∀ d ∈ h.dogs, ∃ b ∈ h.breeds, b.id = d.breed)
    (hassoc : ∀ b ∈ h.breeds, b.dogs = h.dogs.filter (fun d => d.breed == b.id)) :
    ((process_dog_record h r).breeds.map Breed.id).Nodup
    ∧ (∀ d ∈ (process_dog_record h r).dogs,
        ∃ b ∈ (process_dog_record h r).breeds, b.id = d.breed)
    ∧ (∀ b ∈ (process_dog_record h r).breeds,
        b.dogs = (process_dog_record h r).dogs.filter (fun d => d.breed == b.id)) := by
  cases hf : h.breeds.find? (dogMatch r)
  · rw [process_dog_record_none hf]; exact ⟨hnd, href, hassoc⟩
  · rename_i b0
    obtain ⟨bs1, bs2, he, hall, hrb, heq⟩ := process_dog_record_some hf
    have hb0mem : b0 ∈ h.breeds := by
      rw [he]; exact List.mem_append_right _ (List.mem_cons_self _ _)
    have hb1 : ∀ x ∈ bs1, x.id ≠ b0.id := by
      intro x hx hxe
      have hx' := hall x hx
      rw [dogMatch, hrb, hxe] at hx'
      simp at hx'
    have hnd' := hnd
    rw [he, List.map_append, List.map_cons] at hnd'
    have hmid := List.nodup_middle.mp hnd'
    have hnotin := (List.nodup_cons.mp hmid).1
    have hb2 : ∀ x ∈ bs2, x.id ≠ b0.id := by
      intro x hx hxe
      exact hnotin (List.mem_append_right _ (hxe ▸ List.mem_map_of_mem Breed.id hx))
    have hidnew : (bs1 ++ b0.add_dog ⟨r.id, r.name, b0.id⟩ :: bs2).map Breed.id
        = h.breeds.map Breed.id := by
      rw [he]
      simp [List.map_append, Breed.add_dog]
    refine ⟨?_, ?_, ?_⟩
    · rw [heq]
      show ((bs1 ++ b0.add_dog ⟨r.id, r.name, b0.id⟩ :: bs2).map Breed.id).Nodup
      rw [hidnew]; exact hnd
    · rw [heq]
      intro x hx
      rcases List.mem_append.mp hx with hx | hx
      · obtain ⟨b, hb, hbid⟩ := href x hx
        rw [he] at hb
        rcases List.mem_append.mp hb with hb | hb
        · exact ⟨b, List.mem_append_left _ hb, hbid⟩
        · rcases List.mem_cons.mp hb with rfl | hb
          · refine ⟨b.add_dog ⟨r.id, r.name, b.id⟩, ?_, hbid⟩
            exact List.mem_append_right _ (List.mem_cons_self _ _)
          · exact ⟨b, List.mem_append_right _ (List.mem_cons_of_mem _ hb), hbid⟩
      · rcases List.mem_singleton.mp hx with rfl
        refine ⟨b0.add_dog ⟨r.id, r.name, b0.id⟩, ?_, rfl⟩
        exact List.mem_append_right _ (List.mem_cons_self _ _)
    · rw [heq]
      intro b hb
      have hsame : ∀ bb : Breed, bb.id ≠ b0.id →
          (h.dogs ++ [(⟨r.id, r.name, b0.id⟩ : Dog)]).filter (fun x => x.breed == bb.id)
            = h.dogs.filter (fun x => x.breed == bb.id) := by
        intro bb hbb
        have hfd : ((⟨r.id, r.name, b0.id⟩ : Dog).breed == bb.id) = false := by
          simp only [beq_eq_false_iff_ne, ne_eq]
          exact fun hc => hbb hc.symm
        rw [List.filter_append]
        simp [List.filter, hfd]
      rcases List.mem_append.mp hb with hbm | hbm
      · have hbh : b ∈ h.breeds := by rw [he]; exact List.mem_append_left _ hbm
        rw [hsame b (hb1 b hbm), ← hassoc b hbh]
      · rcases List.mem_cons.mp hbm with rfl | hbm
        · have hpred : (fun x : Dog => x.breed == (b0.add_dog ⟨r.id, r.name, b0.id⟩).id)
              = (fun x : Dog => x.breed == b0.id) := by
            simp [Breed.add_dog]
          rw [hpred, List.filter_append]
          have hone : ([(⟨r.id, r.name, b0.id⟩ : Dog)]).filter
              (fun x => x.breed == b0.id) = [⟨r.id, r.name, b0.id⟩] := by
            simp [List.filter]
          rw [hone, ← hassoc b0 hb0mem]
          simp [Breed.add_dog]
        · have hbh : b ∈ h.breeds := by
            rw [he]; exact List.mem_append_right _ (List.mem_cons_of_mem _ hbm)
          rw [hsame b (hb2 b hbm), ← hassoc b hbh]

theorem foldl_process_invariants :
    ∀ (rs : List DogRecord) (h : DogHouse),
      (h.breeds.map Breed.id).Nodup →
      (∀ d ∈ h.dogs, ∃ b ∈ h.breeds, b.id = d.breed) →
      (∀ b ∈ h.breeds, b.dogs = h.dogs.filter (fun d => d.breed == b.id)) →
      ((rs.foldl process_dog_record h).breeds.map Breed.id).Nodup
      ∧ (∀ d ∈ (rs.foldl process_dog_record h).dogs,
          ∃ b ∈ (rs.foldl process_dog_record h).breeds, b.id = d.breed)
      ∧ (∀ b ∈ (rs.foldl process_dog_record h).breeds,
          b.dogs = (rs.foldl process_dog_record h).dogs.filter
            (fun d => d.breed == b.id))
  | [], _, hnd, href, hassoc => ⟨hnd, href, hassoc⟩
  | r :: rs, h, hnd, href, hassoc => by
    obtain ⟨h1, h2, h3⟩ := process_invariants h r hnd href hassoc
    rw [List.foldl_cons]
    exact foldl_process_invariants rs (process_dog_record h r) h1 h2 h3

/-! ### Helper lemmas: the composed `get_data` run -/

theorem str_append_assoc (a b c : String) : a ++ b ++ c = a ++ (b ++ c) := by
  apply String.ext
  show (a ++ b ++ c).data = (a ++ (b ++ c)).data
  simp [String.data_append]

theorem get_breeds_data_house (base : String) (h : DogHouse) (t : Transport) :
    (get_breeds_data base h t).1
      = ⟨h.breeds ++ t.breedChain.records.map mkBreed, h.dogs⟩ := by
  simp only [get_breeds_data]
  exact get_breeds_loop_house t.breedChain h _

theorem get_breeds_data_trace (base : String) (h : DogHouse) (t : Transport) :
    (get_breeds_data base h t).2
      = (base ++ "/api/v1/breeds/?limit=1")
        :: (get_breeds_loop h
             (base ++ "/api/v1/breeds/?limit="
               ++ toString (min 100 (t.breedCount.getD 0)))
             t.breedChain).2 := rfl

theorem get_data_eq (base : String) (t : Transport) :
    get_data base t
      = t.dogChain.records.foldl process_dog_record
          ⟨t.breedChain.records.map mkBreed, []⟩ := by
  rw [get_data, get_dogs_data, get_dogs_loop_house, get_breeds_data_house]
  rfl

/-! ### Claim theorems -/

/-- C1: the claim (and spec §4.4/§7) demands that `send_data` on an aggregate
with no breeds surface an explicit "no breed data" domain error.  The code
does not: `send_data` unconditionally evaluates
`self.get_common_breed().name`, and with an empty breed list
`get_common_breed()` returns `None`, so the access raises Python's
`AttributeError` (modelled by `SendOutcome.noneAttributeError`) — an
unguarded null-field access, not a domain error.  This theorem evaluates the
code at the failing input. -/
theorem send_data_empty_breeds_hits_none_access :
    DogHouse.send_data ⟨[], []⟩ ([] : ExtData) "token"
        = SendOutcome.noneAttributeError
    ∧ (⟨[], []⟩ : DogHouse).get_common_breed = none :=
  ⟨rfl, rfl⟩

/-- C3: for every `DogHouse` with a non-empty breed list, `get_common_breed`
returns the first breed (in insertion order) whose `dogs_count` attains the
maximum over all breeds — i.e. Python's `max` selects a maximal element and
breaks ties by first encounter. -/
theorem get_common_breed_is_first_max (h : DogHouse) (hne : h.breeds ≠ []) :
    h.breeds.find?
        (fun b => b.dogs_count == maxScore Breed.dogs_count h.breeds)
      = h.get_common_breed := by
  obtain ⟨breeds, dogs⟩ := h
  cases breeds with
  | nil => exact absurd rfl hne
  | cons b bs =>
    show (b :: bs).find? _ = _
    simp only [DogHouse.get_common_breed]
    exact find?_pickMax Breed.dogs_count bs b

/-- C3 witness: breeds A (2 dogs), B (2 dogs), C (1 dog) loaded in order
A, B, C — `get_common_breed` returns A. -/
theorem get_common_breed_is_first_max_witness :
    abcHouse.breeds ≠ []
    ∧ abcHouse.breeds.find?
        (fun b => b.dogs_count == maxScore Breed.dogs_count abcHouse.breeds)
        = abcHouse.get_common_breed
    ∧ abcHouse.get_common_breed
        = some ⟨1, "A", [⟨1, "x", 1⟩, ⟨2, "y", 1⟩]⟩ :=
  ⟨by decide, get_common_breed_is_first_max abcHouse (by decide), by decide⟩

/-- C5: for every `DogHouse` produced by the loading phase,
`get_total_dogs()` equals the sum over all breeds of `dogs_count()`: the dog
loader appends each kept dog both to the aggregate list and to exactly one
breed's list. -/
theorem total_dogs_eq_sum_breed_counts (base : String) (t : Transport) :
    (get_data base t).get_total_dogs
      = ((get_data base t).breeds.map Breed.dogs_count).sum := by
  rw [DogHouse.get_total_dogs, get_data_eq]
  apply foldl_process_sum
  show ([] : List Dog).length = _
  rw [List.map_map]
  have hz : (Breed.dogs_count ∘ mkBreed) = fun _ => 0 := funext fun r => rfl
  rw [hz]
  rw [List.sum_eq_zero]
  · rfl
  · intro x hx
    rcases List.mem_map.mp hx with ⟨r, _, rfl⟩
    rfl

/-- C6: a dog record whose breed id resolves to no loaded breed is dropped
entirely: the state is unchanged (no error, no contribution to any count).
A record whose breed id does resolve is appended to the aggregate's dog list
and to the matched breed's own dog list — the matched breed being the first
with that id, everything before it unmatched. -/
theorem dog_record_resolution (h : DogHouse) (r : DogRecord) :
    ((∀ b ∈ h.breeds, r.breed ≠ some b.id) → process_dog_record h r = h)
    ∧ (∀ b0, h.breeds.find? (dogMatch r) = some b0 →
        (process_dog_record h r).dogs = h.dogs ++ [⟨r.id, r.name, b0.id⟩]
        ∧ ∃ bs1 bs2, h.breeds = bs1 ++ b0 :: bs2
            ∧ (∀ b ∈ bs1, r.breed ≠ some b.id)
            ∧ (process_dog_record h r).breeds
                = bs1 ++ (b0.add_dog ⟨r.id, r.name, b0.id⟩) :: bs2) := by
  constructor
  · intro hno
    apply process_dog_record_none
    rw [List.find?_eq_none]
    intro b hb
    simp only [dogMatch, beq_iff_eq]
    exact hno b hb
  · intro b0 hf
    obtain ⟨bs1, bs2, he, hall, hrb, heq⟩ := process_dog_record_some hf
    refine ⟨by rw [heq], bs1, bs2, he, ?_, by rw [heq]⟩
    intro b hb
    have hx := hall b hb
    simp only [dogMatch, beq_eq_false_iff_ne, ne_eq] at hx
    exact hx

/-- C6 witness: with one breed of id 1, the record with breed id 5 is
dropped leaving the house unchanged; the record with breed id 1 is appended
to the dog list. -/
theorem dog_record_resolution_witness :
    process_dog_record ⟨[⟨1, "A", []⟩], []⟩ ⟨7, "Rex", some 5⟩
        = ⟨[⟨1, "A", []⟩], []⟩
    ∧ (process_dog_record ⟨[⟨1, "A", []⟩], []⟩ ⟨7, "Rex", some 1⟩).dogs
        = [] ++ [⟨7, "Rex", 1⟩] :=
  ⟨(dog_record_resolution ⟨[⟨1, "A", []⟩], []⟩ ⟨7, "Rex", some 5⟩).1 (by decide),
   ((dog_record_resolution ⟨[⟨1, "A", []⟩], []⟩ ⟨7, "Rex", some 1⟩).2
      ⟨1, "A", []⟩ (by decide)).1⟩

/-- C8: on an empty aggregate (no breeds, no dogs), `get_total_breeds` is 0,
`get_total_dogs` is 0, `get_common_dog_name` is `""` and `get_common_breed`
is the null value. -/
theorem empty_aggregate_getters (h : DogHouse)
    (hb : h.breeds = []) (hd : h.dogs = []) :
    h.get_total_breeds = 0 ∧ h.get_total_dogs = 0
    ∧ h.get_common_dog_name = "" ∧ h.get_common_breed = none := by
  obtain ⟨breeds, dogs⟩ := h
  cases hb
  cases hd
  exact ⟨rfl, rfl, rfl, rfl⟩

/-- C8 witness: the getters on the freshly constructed `DogHouse`. -/
theorem empty_aggregate_getters_witness :
    DogHouse.empty.breeds = [] ∧ DogHouse.empty.dogs = []
    ∧ (DogHouse.empty.get_total_breeds = 0 ∧ DogHouse.empty.get_total_dogs = 0
      ∧ DogHouse.empty.get_common_dog_name = ""
      ∧ DogHouse.empty.get_common_breed = none) :=
  ⟨rfl, rfl, empty_aggregate_getters DogHouse.empty rfl rfl⟩

/-- C2 counterexample: the claim as stated fails on the code.  The breed
loader appends every fetched record without deduplication, so a transport
whose breed pages repeat an id (here id 1 twice) yields a loaded `DogHouse`
violating the invariants: the breed id list `[1, 1]` is not `Nodup`, and the
second copy's `dogs` list is empty while the aggregate holds a dog with
breed id 1. -/
theorem load_invariants_counterexample :
    ¬ ((((get_data "u" dupBreedTransport).breeds.map Breed.id).Nodup)
      ∧ (∀ d ∈ (get_data "u" dupBreedTransport).dogs,
          ∃ b ∈ (get_data "u" dupBreedTransport).breeds, b.id = d.breed)
      ∧ (∀ b ∈ (get_data "u" dupBreedTransport).breeds,
          b.dogs = (get_data "u" dupBreedTransport).dogs.filter
            (fun d => d.breed == b.id))) := by
  decide

/-- C2 amended: provided the fetched breed records carry pairwise-distinct
ids, every `DogHouse` produced by `get_data` (breeds loaded before dogs)
satisfies the three data-model invariants: breed ids are unique, every dog's
breed id is the id of some loaded breed, and each breed's `dogs` list is
exactly the aggregate's dogs with that breed id, in fetch order. -/
theorem load_invariants (base : String) (t : Transport)
    (hids : (t.breedChain.records.map BreedRecord.id).Nodup) :
    (((get_data base t).breeds.map Breed.id).Nodup)
    ∧ (∀ d ∈ (get_data base t).dogs,
        ∃ b ∈ (get_data base t).breeds, b.id = d.breed)
    ∧ (∀ b ∈ (get_data base t).breeds,
        b.dogs = (get_data base t).dogs.filter (fun d => d.breed == b.id)) := by
  rw [get_data_eq]
  apply foldl_process_invariants
  · show ((t.breedChain.records.map mkBreed).map Breed.id).Nodup
    rw [List.map_map]
    have hcomp : (Breed.id ∘ mkBreed) = BreedRecord.id := funext fun r => rfl
    rw [hcomp]
    exact hids
  · intro d hd
    exact absurd hd (List.not_mem_nil d)
  · intro b hb
    obtain ⟨r, _, rfl⟩ := List.mem_map.mp hb
    rfl

/-- C2 witness: a transport with one breed (id 1) and one matching dog. -/
theorem load_invariants_witness :
    (goodTransport.breedChain.records.map BreedRecord.id).Nodup
    ∧ ((((get_data "u" goodTransport).breeds.map Breed.id).Nodup)
      ∧ (∀ d ∈ (get_data "u" goodTransport).dogs,
          ∃ b ∈ (get_data "u" goodTransport).breeds, b.id = d.breed)
      ∧ (∀ b ∈ (get_data "u" goodTransport).breeds,
          b.dogs = (get_data "u" goodTransport).dogs.filter
            (fun d => d.breed == b.id))) :=
  ⟨by decide, load_invariants "u" goodTransport (by decide)⟩

/-- C4: for every `DogHouse` with a non-empty dog list,
`get_common_dog_name` returns the first name (in fetch order of the dogs)
whose frequency among all loaded dog names attains the maximum — i.e. the
most frequent name, with ties going to the name whose first occurrence is
earliest. -/
theorem get_common_dog_name_is_first_max (h : DogHouse) (hne : h.dogs ≠ []) :
    (h.dogs.map Dog.name).find?
        (fun n => (h.dogs.map Dog.name).count n
            == maxScore (fun m => (h.dogs.map Dog.name).count m)
                 (h.dogs.map Dog.name))
      = some h.get_common_dog_name := by
  obtain ⟨breeds, dogs⟩ := h
  cases dogs with
  | nil => exact absurd rfl hne
  | cons d ds =>
    show ((d :: ds).map Dog.name).find?
        (fun n => ((d :: ds).map Dog.name).count n
            == maxScore (fun m => ((d :: ds).map Dog.name).count m)
                 ((d :: ds).map Dog.name))
      = some (DogHouse.get_common_dog_name ⟨breeds, d :: ds⟩)
    set names := (d :: ds).map Dog.name with hn
    have hmemkeys : ∀ x, x ∈ counterKeys names ↔ x ∈ names := by
      intro x
      rw [counterKeys, mem_foldl_counterInsert names [] x]
      simp
    obtain ⟨k, ks, hkeys⟩ : ∃ k ks, counterKeys names = k :: ks := by
      cases hc : counterKeys names with
      | nil =>
        exfalso
        have hmem : d.name ∈ names := by
          rw [hn]
          exact List.mem_map_of_mem Dog.name (List.mem_cons_self d ds)
        have hink := (hmemkeys d.name).mpr hmem
        rw [hc] at hink
        exact absurd hink (List.not_mem_nil _)
      | cons k ks => exact ⟨k, ks, rfl⟩
    have hgc : DogHouse.get_common_dog_name ⟨breeds, d :: ds⟩
        = pickMax (fun n => names.count n) k ks := by
      show most_common1 names = _
      unfold most_common1
      rw [hkeys]
    have hms : maxScore (fun n => names.count n) (k :: ks)
        = maxScore (fun n => names.count n) names := by
      apply maxScore_congr
      intro x
      rw [← hkeys]
      exact hmemkeys x
    have hpick := find?_pickMax (fun n => names.count n) ks k
    rw [hms, ← hkeys, find?_counterKeys] at hpick
    rw [hgc]
    exact hpick

/-- C4 witness: dogs named Rex, Fido, Rex, Fido loaded in that order —
`get_common_dog_name` returns "Rex". -/
theorem get_common_dog_name_is_first_max_witness :
    rexFidoHouse.dogs ≠ []
    ∧ (rexFidoHouse.dogs.map Dog.name).find?
        (fun n => (rexFidoHouse.dogs.map Dog.name).count n
            == maxScore (fun m => (rexFidoHouse.dogs.map Dog.name).count m)
                 (rexFidoHouse.dogs.map Dog.name))
        = some rexFidoHouse.get_common_dog_name
    ∧ rexFidoHouse.get_common_dog_name = "Rex" :=
  ⟨by decide, get_common_dog_name_is_first_max rexFidoHouse (by decide), by decide⟩

/-- C7 counterexample: the claim as stated — every pagination loop "appends
every record of every page exactly once" — fails for the dog loader: with no
breeds loaded, a dog page holding one record appends nothing (the record is
dropped by breed resolution), so appended entities ≠ records returned. -/
theorem pagination_counterexample :
    ¬ ((get_dogs_loop DogHouse.empty "u" orphanChain).1.dogs.length
        = orphanChain.records.length) := by
  decide

/-- C7 amended: each pagination loop issues exactly one request per response
in the chain and stops exactly when `next` is null (the trace has one URL per
page), and processes every record of every page exactly once: the breed
loader appends every record, while the dog loader appends exactly those
records whose breed id resolves, each at most once.  In particular 3 breed
pages of 100/100/37 records yield exactly 237 appended breeds. -/
theorem pagination_requests_and_records :
    (∀ (h : DogHouse) (url : String) (c : Chain BreedRecord),
        (get_breeds_loop h url c).2.length = c.pages.length
        ∧ (get_breeds_loop h url c).1.breeds = h.breeds ++ c.records.map mkBreed)
    ∧ (∀ (h : DogHouse) (url : String) (c : Chain DogRecord),
        (get_dogs_loop h url c).2.length = c.pages.length
        ∧ (get_dogs_loop h url c).1.dogs = h.dogs ++ matched_dogs h.breeds c.records)
    ∧ (get_breeds_loop DogHouse.empty "u0" chain237).1.breeds.length = 237 := by
  refine ⟨?_, ?_, ?_⟩
  · intro h url c
    exact ⟨get_breeds_loop_trace c h url, by rw [get_breeds_loop_house c h url]⟩
  · intro h url c
    refine ⟨get_dogs_loop_trace c h url, ?_⟩
    rw [get_dogs_loop_house c h url]
    exact (foldl_process_dogs c.records h).1
  · rw [get_breeds_loop_house chain237 DogHouse.empty "u0"]
    show (DogHouse.empty.breeds ++ chain237.records.map mkBreed).length = 237
    rw [List.length_append, List.length_map]
    have hp : chain237.pages
        = [List.replicate 100 (⟨0, "r"⟩ : BreedRecord),
           List.replicate 100 ⟨0, "r"⟩, List.replicate 37 ⟨0, "r"⟩] := rfl
    rw [Chain.records, hp, List.length_flatten]
    simp [List.length_replicate, DogHouse.empty]

/-- C9: the breed loader's first request is the probe with the minimal page
size (`?limit=1`), and its second request — the first full fetch — uses
`limit = min(100, c)` where `c` is the probe response's `count` (defaulting
to 0 when absent); in particular `c = 0` yields a `limit=0` request. -/
theorem breed_probe_and_page_size (base : String) (h : DogHouse) (t : Transport) :
    (get_breeds_data base h t).2.head? = some (base ++ "/api/v1/breeds/?limit=1")
    ∧ (get_breeds_data base h t).2.tail.head?
        = some (base ++ "/api/v1/breeds/?limit="
            ++ toString (min 100 (t.breedCount.getD 0)))
    ∧ (t.breedCount = some 0 →
        (get_breeds_data base h t).2.tail.head?
          = some (base ++ "/api/v1/breeds/?limit=0")) := by
  have hhead : ∀ (hh : DogHouse) (url : String) (c : Chain BreedRecord),
      (get_breeds_loop hh url c).2.head? = some url := by
    intro hh url c
    cases c <;> simp [get_breeds_loop]
  refine ⟨?_, ?_, ?_⟩
  · rw [get_breeds_data_trace]
    rfl
  · rw [get_breeds_data_trace]
    exact hhead h _ t.breedChain
  · intro h0
    rw [get_breeds_data_trace, h0]
    have := hhead h (base ++ "/api/v1/breeds/?limit="
      ++ toString (min 100 ((some (0 : Nat)).getD 0))) t.breedChain
    rw [List.tail_cons, this]
    rw [str_append_assoc]
    congr 2

/-- C9 witness: with a probe count of 0 the first full fetch requests
`limit=0`. -/
theorem breed_probe_and_page_size_witness :
    probe0Transport.breedCount = some 0
    ∧ (get_breeds_data "" DogHouse.empty probe0Transport).2.tail.head?
        = some ("" ++ "/api/v1/breeds/?limit=0") :=
  ⟨rfl, (breed_probe_and_page_size "" DogHouse.empty probe0Transport).2.2 rfl⟩

/-- C10: `send_data` ignores its `data` parameter (and token differences do
not affect the payload): the method rebuilds the payload from the
aggregate's getters, as `{totalBreeds, totalDogs, commonBreed,
commonDogName}`. -/
theorem send_data_ignores_data_param (h : DogHouse) (d1 d2 : ExtData)
    (tok1 tok2 : String) :
    h.send_data d1 tok1 = h.send_data d2 tok2
    ∧ (∀ p : Payload, h.send_data d1 tok1 = SendOutcome.posted p →
        p.totalBreeds = h.get_total_breeds
        ∧ p.totalDogs = h.get_total_dogs
        ∧ (∃ b, h.get_common_breed = some b ∧ p.commonBreed = b.name)
        ∧ p.commonDogName = h.get_common_dog_name) := by
  constructor
  · rfl
  · intro p hp
    cases hg : h.get_common_breed with
    | none => simp [DogHouse.send_data, hg] at hp
    | some b =>
      simp only [DogHouse.send_data, hg] at hp
      cases hp
      exact ⟨rfl, rfl, ⟨b, rfl, rfl⟩, rfl⟩

/-- C10 witness: on a one-breed aggregate, two different `data` dicts give
the same outcome, and the posted payload fields equal the getters. -/
theorem send_data_ignores_data_param_witness :
    DogHouse.send_data ⟨[⟨1, "A", []⟩], []⟩ [("k", "v")] "t1"
        = DogHouse.send_data ⟨[⟨1, "A", []⟩], []⟩ ([] : ExtData) "t2"
    ∧ ((⟨1, 0, "A", ""⟩ : Payload).totalBreeds
          = (⟨[⟨1, "A", []⟩], []⟩ : DogHouse).get_total_breeds
      ∧ (⟨1, 0, "A", ""⟩ : Payload).totalDogs
          = (⟨[⟨1, "A", []⟩], []⟩ : DogHouse).get_total_dogs
      ∧ (∃ b, (⟨[⟨1, "A", []⟩], []⟩ : DogHouse).get_common_breed = some b
          ∧ (⟨1, 0, "A", ""⟩ : Payload).commonBreed = b.name)
      ∧ (⟨1, 0, "A", ""⟩ : Payload).commonDogName
          = (⟨[⟨1, "A", []⟩], []⟩ : DogHouse).get_common_dog_name) :=
  ⟨(send_data_ignores_data_param ⟨[⟨1, "A", []⟩], []⟩ [("k", "v")] [] "t1" "t2").1,
   (send_data_ignores_data_param ⟨[⟨1, "A", []⟩], []⟩ [("k", "v")] [] "t1" "t2").2
     ⟨1, 0, "A", ""⟩ (by decide)⟩

end PyModels
